import Mathlib

/-!
# Verification of the dataframe-cleaning pipeline

A shallow embedding of `src/dataframe_cleaning.py` (a PySpark cleaning
script) together with a model, built from the specification, of the
approximate-quantile core that the script delegates to the library call
`df.approxQuantile` (line 46).  Numeric scalars are modelled as `ℚ`,
records as association lists from column names to scalar values, and a
DataFrame as a list of records.
-/

namespace DataframeCleaning

/-- A scalar cell value: string, number, date or null (the data model of
records in the pipeline). -/
inductive Value : Type where
  | null : Value
  | str (s : String) : Value
  | num (q : ℚ) : Value
  | date (d : Int) : Value
deriving DecidableEq

/-- A record: an ordered mapping from column name to scalar value. -/
abbrev Record := List (String × Value)

/-- A dataset: a list of records (partitioning is physical only). -/
abbrev DataFrame := List Record

/-- `col(c)` on a record: the value stored under column `c`
(null when the column is absent). -/
def getCol (r : Record) (c : String) : Value :=
  (r.lookup c).getD Value.null

/-- `withColumn`: replace the value of an existing column in place, or
append the new column at the end (Spark `DataFrame.withColumn`
semantics, per record). -/
def withColumn (r : Record) (c : String) (v : Value) : Record :=
  if r.lookup c = none then r ++ [(c, v)]
  else r.map (fun kv => if kv.1 = c then (c, v) else kv)

/-- The numeric content of a cell: `some q` for a number, `none` for
anything else (nulls are ignored by the quantile computation). -/
def toNum : Value → Option ℚ
  | Value.num q => some q
  | _ => none

/-! ## The scalar capping transform (lines 50-53)

`when(col < lower_bound, lower_bound).when(col > upper_bound,
upper_bound).otherwise(col)` — a `when`-chain is evaluated first branch
first, so the `x < lower` branch takes precedence. -/

/-- The per-row clamp written to the column `numeric_column_capped`
(lines 50-53), on the numeric content of the cell. -/
def numeric_column_capped (lower upper x : ℚ) : ℚ :=
  if x < lower then lower
  else if x > upper then upper
  else x

/-- The capping `when`-chain on a full cell: a null (or non-numeric)
input falls through every `when` condition to `otherwise(col)`. -/
def capValue (lower upper : ℚ) : Value → Value
  | Value.num x => Value.num (numeric_column_capped lower upper x)
  | v => v

/-- The capping stage applied to one record (lines 50-53): writes the
clamped value to the new column `numeric_column_capped`. -/
def capRow (lower upper : ℚ) (r : Record) : Record :=
  withColumn r "numeric_column_capped"
    (capValue lower upper (getCol r "numeric_column"))

/-! ## The quantile core, modelled from the spec

The script delegates quantile estimation to the library call
`df.approxQuantile("numeric_column", [0.05, 0.95], 0.0)` (line 46); the
sketch / merger / coordinator the spec describes (§4.1-§4.3) are not in
the repository's source.  They are therefore modelled from the spec at
the contract level.  Since the call site fixes the relative error to
`0.0`, the model computes exact quantiles on the retained multiset: the
compression policy of §4.1 (a pure memory optimisation, with its bound
ε·N on introduced rank error) is realised by its ε = 0 instance, which
retains every value, so every query answer has zero rank error and in
particular satisfies the ε-rank contract for every ε ≥ 0. -/

/-- Modelled from the spec: the error kinds of §7 relevant to the
quantile core (`InvalidValue`, `EmptySketch`, `SchemaMismatch`). -/
inductive CoreError : Type where
  | invalidValue : CoreError
  | emptySketch : CoreError
  | schemaMismatch : CoreError
deriving DecidableEq

/-- Modelled from the spec: the Quantile Sketch of §4.1, at contract
level — the multiset of inserted values (ε = 0 instance of the summary,
see above). -/
structure Sketch : Type where
  vals : List ℚ
deriving DecidableEq

/-- Modelled from the spec: a sketch "created empty per partition at
stage start" (§3). -/
def Sketch.empty : Sketch := ⟨[]⟩

/-- Modelled from the spec: `insert(value)` of §4.1 — never fails on
numeric input. -/
def Sketch.insert (s : Sketch) (v : ℚ) : Sketch := ⟨s.vals ++ [v]⟩

/-- Modelled from the spec: `merge(a, b)` of §4.2 — the summary of the
union of the two multisets. -/
def Sketch.merge (a b : Sketch) : Sketch := ⟨a.vals ++ b.vals⟩

/-- The (0-based) index into the sorted multiset of `n` values that
answers a query at rank `r`: `⌊r·n⌋`, clamped to the last element. -/
def quantileIndex (r : ℚ) (n : ℕ) : ℕ :=
  min (⌊r * (n : ℚ)⌋).toNat (n - 1)

/-- Modelled from the spec: `query(rank)` of §4.1 — the value of the
summary at the requested rank; fails with `EmptySketch` if no values
were ever inserted. -/
def Sketch.query (s : Sketch) (r : ℚ) : Except CoreError ℚ :=
  if s.vals = [] then Except.error CoreError.emptySketch
  else Except.ok ((s.vals.insertionSort (· ≤ ·)).getD (quantileIndex r s.vals.length) 0)

/-- Modelled from the spec: the per-partition sketch build of §4.3 —
sequential insertion of the partition's scanned values, nulls excluded
before insertion (§4.1). -/
def buildSketch (part : List (Option ℚ)) : Sketch :=
  part.foldl (fun s v? => match v? with | some v => s.insert v | none => s) Sketch.empty

/-- Modelled from the spec: the merge reduction of §4.3 — sequential
pairwise reduction of the per-partition sketches. -/
def mergeAll (parts : List (List (Option ℚ))) : Sketch :=
  (parts.map buildSketch).foldl Sketch.merge Sketch.empty

/-- Modelled from the spec: the Quantile Coordinator query for a single
rank — build per-partition sketches, merge, query the global sketch. -/
def estimateAt (parts : List (List (Option ℚ))) (r : ℚ) : Except CoreError ℚ :=
  (mergeAll parts).query r

/-- Modelled from the spec: `estimate(partitions, ranks)` of §4.3 — a
mapping from each requested rank to the queried value; fails with
`EmptySketch` when the global sketch is empty and a rank is queried. -/
def estimate (parts : List (List (Option ℚ))) (ranks : List ℚ) :
    Except CoreError (List (ℚ × ℚ)) :=
  ranks.mapM (fun r => ((mergeAll parts).query r).map (fun v => (r, v)))

/-! ## The call site (line 46) -/

/-- The third argument of the `approxQuantile` call at line 46 of the
source: the relative rank-error parameter, written there as `0.0`. -/
def relativeErrorArg : ℚ := 0

/-- The probabilities argument of the `approxQuantile` call at line 46:
`[0.05, 0.95]`. -/
def probabilitiesArg : List ℚ := [5/100, 95/100]

/-- `df.approxQuantile(col, probs, relativeError)`: collect the numeric
values of the column across the whole dataset, build the (spec-modelled)
sketch and answer every probability.  The model realises the exact
(relative error 0) computation the call site requests; its answers
satisfy the rank contract for every requested `relativeError ≥ 0`. -/
def approxQuantile (df : DataFrame) (c : String) (probs : List ℚ)
    (relativeError : ℚ) : Except CoreError (List ℚ) :=
  let _ := relativeError
  let sk := buildSketch (df.map (fun r => toNum (getCol r c)))
  probs.mapM sk.query

/-- Line 46: `quantiles = df.approxQuantile("numeric_column",
[0.05, 0.95], 0.0)`. -/
def quantiles (df : DataFrame) : Except CoreError (List ℚ) :=
  approxQuantile df "numeric_column" probabilitiesArg relativeErrorArg

/-! ## The pipeline stages (lines 16-72)

Each numbered block of the script reassigns `df`; each becomes a stage
function.  Failures abort the pipeline and are surfaced as
`StageFailed(stage, cause)` (spec §4.4, §7). -/

/-- The names of the pipeline's stages, in the spec's granularity
(§4.4): text and categorical normalization form one stage, as do rename
and drop. -/
inductive StageName : Type where
  | dedup : StageName
  | missingValues : StageName
  | normalize : StageName
  | outlierCapping : StageName
  | typeCoercion : StageName
  | renameDrop : StageName
  | repartitionStage : StageName
  | writeStage : StageName
deriving DecidableEq

/-- Modelled from the spec: `StageFailed(stage_name, cause)` of §7 —
the pipeline-level wrapper of a stage failure. -/
inductive PipelineError : Type where
  | stageFailed (stage : StageName) (cause : CoreError) : PipelineError
deriving DecidableEq

/-- Line 16: `df.dropDuplicates()`. -/
def dropDuplicatesStage (df : DataFrame) : DataFrame := df.dedup

/-- Line 20: `df.dropna(subset=["important_column1",
"important_column2"])` — drop rows with a null in either column. -/
def dropnaStage (df : DataFrame) : DataFrame :=
  df.filter (fun r =>
    getCol r "important_column1" ≠ Value.null ∧
    getCol r "important_column2" ≠ Value.null)

/-- Lines 23-27: `df.fillna({...})` — replace a null in each listed
column by its default. -/
def fillnaRow (r : Record) : Record :=
  let fill (r : Record) (c : String) (d : Value) : Record :=
    if getCol r c = Value.null ∧ r.lookup c ≠ none then withColumn r c d else r
  fill (fill (fill r "column1" (Value.str "Unknown"))
    "column2" (Value.num 0)) "column3" (Value.str "N/A")

/-- Stage 2 (lines 18-27): missing-value handling — the `dropna` of
line 20 followed by the `fillna` of lines 23-27. -/
def missingValuesStage (df : DataFrame) : DataFrame :=
  (dropnaStage df).map fillnaRow

/-- Line 31's regex `[^a-zA-Z0-9\s]`: keep only ASCII alphanumerics and
whitespace. -/
def stripSpecial (s : String) : String :=
  String.mk (s.data.filter (fun ch => ch.isAlphanum || ch.isWhitespace))

/-- Lines 31-35 on one cell: `regexp_replace`, then `lower`, then
`trim`; a null input propagates to null (Spark string functions are
null-in, null-out). -/
def cleanTextValue : Value → Value
  | Value.str s => Value.str (stripSpecial s).toLower.trim
  | _ => Value.null

/-- Lines 31-35: write the cleaned text to the column `cleaned_text`. -/
def textCleanRow (r : Record) : Record :=
  withColumn r "cleaned_text" (cleanTextValue (getCol r "text_column"))

/-- Line 39 on one cell: `lower(trim(col))`; null propagates. -/
def lowerTrimValue : Value → Value
  | Value.str s => Value.str s.trim.toLower
  | _ => Value.null

/-- Lines 40-43 on one cell: `when(col == "yes", "yes").when(col ==
"no", "no").otherwise(col)`; a null comparison is not true, so a null
falls through to `otherwise`. -/
def standardizeYesNo (v : Value) : Value :=
  if v = Value.str "yes" then Value.str "yes"
  else if v = Value.str "no" then Value.str "no"
  else v

/-- Lines 39-43: the two `withColumn` writes to `categorical_column`. -/
def categoricalRow (r : Record) : Record :=
  let r1 := withColumn r "categorical_column"
    (lowerTrimValue (getCol r "categorical_column"))
  withColumn r1 "categorical_column"
    (standardizeYesNo (getCol r1 "categorical_column"))

/-- Stage 3+4 (lines 29-43): text normalization then categorical
normalization, per record. -/
def normalizeStage (df : DataFrame) : DataFrame :=
  (df.map textCleanRow).map categoricalRow

/-- Stage 5 (lines 46-53): outlier capping — compute the two quantile
bounds (line 46), read `quantiles[0]` and `quantiles[1]` (lines 47-48),
then apply the per-row clamp (lines 50-53).  A failing quantile call is
surfaced as `StageFailed` (spec §7). -/
def outlierCappingStage (df : DataFrame) : Except PipelineError DataFrame :=
  match quantiles df with
  | Except.error e => Except.error (PipelineError.stageFailed StageName.outlierCapping e)
  | Except.ok qs =>
      let lower_bound := qs.getD 0 0
      let upper_bound := qs.getD 1 0
      Except.ok (df.map (capRow lower_bound upper_bound))

/-- Line 56 on one cell: `cast("double")` — a number stays itself, a
null stays null, anything else casts to null. -/
def castDouble : Value → Value
  | Value.num q => Value.num q
  | _ => Value.null

/-- Line 57 on one cell: `cast("date")`. -/
def castDate : Value → Value
  | Value.date d => Value.date d
  | _ => Value.null

/-- Stage 6 (lines 55-57): type casting of `numeric_column` and
`date_column`. -/
def typeCoercionStage (df : DataFrame) : DataFrame :=
  df.map (fun r =>
    let r1 := withColumn r "numeric_column" (castDouble (getCol r "numeric_column"))
    withColumn r1 "date_column" (castDate (getCol r1 "date_column")))

/-- Line 60: `withColumnRenamed("old_column_name", "new_column_name")`. -/
def renameRow (r : Record) : Record :=
  r.map (fun kv => if kv.1 = "old_column_name" then ("new_column_name", kv.2) else kv)

/-- Line 63: `drop("unnecessary_column1", "unnecessary_column2")`. -/
def dropColsRow (r : Record) : Record :=
  r.filter (fun kv => kv.1 ≠ "unnecessary_column1" ∧ kv.1 ≠ "unnecessary_column2")

/-- Stage 7+8 (lines 59-63): rename, then drop. -/
def renameDropStage (df : DataFrame) : DataFrame :=
  (df.map renameRow).map dropColsRow

/-- Line 66: `df.repartition(10)` — a physical-layout operation; the
row content of the dataset is unchanged. -/
def repartitionStage (df : DataFrame) : DataFrame := df

/-- Line 72: `df.write.csv(...)` — emits the dataset; the value carried
forward is the written dataset itself. -/
def writeStage (df : DataFrame) : DataFrame := df

/-- A pipeline stage: its name and its action on the dataset (pure
stages are lifted into `Except`). -/
def liftStage (f : DataFrame → DataFrame) (df : DataFrame) :
    Except PipelineError DataFrame :=
  Except.ok (f df)

/-- The pipeline of lines 16-72: the stages in the textual order of the
script. -/
def pipelineStages : List (StageName × (DataFrame → Except PipelineError DataFrame)) :=
  [(StageName.dedup, liftStage dropDuplicatesStage),
   (StageName.missingValues, liftStage missingValuesStage),
   (StageName.normalize, liftStage normalizeStage),
   (StageName.outlierCapping, outlierCappingStage),
   (StageName.typeCoercion, liftStage typeCoercionStage),
   (StageName.renameDrop, liftStage renameDropStage),
   (StageName.repartitionStage, liftStage repartitionStage),
   (StageName.writeStage, liftStage writeStage)]

/-- Run a list of stages in order, recording the name of every stage
that is entered; a failing stage aborts the run (spec §4.4: no
partial-commit semantics). -/
def runStages : List (StageName × (DataFrame → Except PipelineError DataFrame)) →
    DataFrame → List StageName × Except PipelineError DataFrame
  | [], df => ([], Except.ok df)
  | (n, f) :: rest, df =>
      match f df with
      | Except.ok df' =>
          let res := runStages rest df'
          (n :: res.1, res.2)
      | Except.error e => ([n], Except.error e)

/-- The whole script, lines 16-72. -/
def runPipeline (df : DataFrame) : List StageName × Except PipelineError DataFrame :=
  runStages pipelineStages df

/-- The stage order stated by the spec (§4.4). -/
def specStageOrder : List StageName :=
  [StageName.dedup, StageName.missingValues, StageName.normalize,
   StageName.outlierCapping, StageName.typeCoercion, StageName.renameDrop,
   StageName.repartitionStage, StageName.writeStage]

/-! ## Rank counting and auxiliary data -/

/-- The number of values of the multiset `xs` strictly below `v` — the
lower end of the true-rank range of `v` in `xs`. -/
def countLT (v : ℚ) (xs : List ℚ) : ℕ := xs.countP (fun x => x < v)

/-- The number of values of the multiset `xs` at or below `v` — the
upper end of the true-rank range of `v` in `xs`. -/
def countLE (v : ℚ) (xs : List ℚ) : ℕ := xs.countP (fun x => x ≤ v)

/-- Whether a stage result is a success. -/
def isOkB : Except PipelineError DataFrame → Bool
  | Except.ok _ => true
  | Except.error _ => false

/-- A one-record dataset on which every stage of the pipeline
succeeds. -/
def sampleDf : DataFrame :=
  [[("important_column1", Value.num 1), ("important_column2", Value.num 1),
    ("numeric_column", Value.num 5)]]

/-- A one-record dataset whose target numeric column holds only a
null. -/
def nullColumnDf : DataFrame :=
  [[("important_column1", Value.num 1), ("important_column2", Value.num 1),
    ("numeric_column", Value.null)]]

/-! ## Association-list lemmas for `getCol` / `withColumn` -/

theorem lookup_cons_self (c : String) (v : Value) (t : Record) :
    List.lookup c ((c, v) :: t) = some v := by
  simp [List.lookup_cons]

theorem lookup_cons_ne {c k : String} (h : c ≠ k) (v : Value) (t : Record) :
    List.lookup c ((k, v) :: t) = List.lookup c t := by
  simp [List.lookup_cons, beq_false_of_ne h]

theorem lookup_append_rec (c : String) (l₁ l₂ : Record) :
    List.lookup c (l₁ ++ l₂) = (List.lookup c l₁).or (List.lookup c l₂) := by
  induction l₁ with
  | nil => simp
  | cons kv t ih =>
      rcases kv with ⟨k, v⟩
      by_cases h : c = k
      · subst h
        rw [List.cons_append, lookup_cons_self, lookup_cons_self, Option.or_some]
      · rw [List.cons_append, lookup_cons_ne h, lookup_cons_ne h, ih]

theorem lookup_map_replace (c : String) (v : Value) (r : Record) :
    List.lookup c (r.map (fun kv => if kv.1 = c then (c, v) else kv)) =
      (List.lookup c r).map (fun _ => v) := by
  induction r with
  | nil => simp
  | cons kv t ih =>
      rcases kv with ⟨k, u⟩
      by_cases h : k = c
      · subst h
        have hmap : (if ((k, u) : String × Value).1 = k then (k, v) else (k, u)) =
            (k, v) := by simp
        rw [List.map_cons, hmap, lookup_cons_self, lookup_cons_self]
        rfl
      · have hmap : (if ((k, u) : String × Value).1 = c then (c, v) else (k, u)) =
            (k, u) := by simp [h]
        rw [List.map_cons, hmap, lookup_cons_ne (Ne.symm h), lookup_cons_ne (Ne.symm h), ih]

theorem lookup_map_replace_ne {c c' : String} (h : c' ≠ c) (v : Value) (r : Record) :
    List.lookup c' (r.map (fun kv => if kv.1 = c then (c, v) else kv)) =
      List.lookup c' r := by
  induction r with
  | nil => simp
  | cons kv t ih =>
      rcases kv with ⟨k, u⟩
      by_cases hk : k = c
      · subst hk
        have hmap : (if ((k, u) : String × Value).1 = k then (k, v) else (k, u)) =
            (k, v) := by simp
        rw [List.map_cons, hmap, lookup_cons_ne h, lookup_cons_ne h, ih]
      · have hmap : (if ((k, u) : String × Value).1 = c then (c, v) else (k, u)) =
            (k, u) := by simp [hk]
        rw [List.map_cons, hmap]
        by_cases hck : c' = k
        · subst hck
          rw [lookup_cons_self, lookup_cons_self]
        · rw [lookup_cons_ne hck, lookup_cons_ne hck, ih]

theorem map_replace_of_lookup_none (c : String) (v : Value) (r : Record)
    (h : List.lookup c r = none) :
    r.map (fun kv => if kv.1 = c then (c, v) else kv) = r := by
  induction r with
  | nil => rfl
  | cons kv t ih =>
      rcases kv with ⟨k, u⟩
      by_cases hk : k = c
      · subst hk
        rw [lookup_cons_self] at h
        cases h
      · have h' : List.lookup c t = none := by
          rwa [lookup_cons_ne (Ne.symm hk)] at h
        have hmap : (if ((k, u) : String × Value).1 = c then (c, v) else (k, u)) =
            (k, u) := by simp [hk]
        rw [List.map_cons, hmap, ih h']

theorem getCol_withColumn_self (r : Record) (c : String) (v : Value) :
    getCol (withColumn r c v) c = v := by
  unfold withColumn getCol
  by_cases h : List.lookup c r = none
  · rw [if_pos h, lookup_append_rec, h, lookup_cons_self, Option.none_or]
    rfl
  · rw [if_neg h, lookup_map_replace]
    rcases Option.ne_none_iff_exists'.mp h with ⟨u, hu⟩
    rw [hu]
    rfl

theorem getCol_withColumn_ne (r : Record) {c c' : String} (v : Value) (h : c' ≠ c) :
    getCol (withColumn r c v) c' = getCol r c' := by
  unfold withColumn getCol
  by_cases hc : List.lookup c r = none
  · rw [if_pos hc, lookup_append_rec, lookup_cons_ne h, List.lookup_nil,
      Option.or_none]
  · rw [if_neg hc, lookup_map_replace_ne h]

theorem withColumn_withColumn (r : Record) (c : String) (v w : Value) :
    withColumn (withColumn r c v) c w = withColumn r c w := by
  by_cases h : List.lookup c r = none
  · unfold withColumn
    have h2 : List.lookup c (r ++ [(c, v)]) = some v := by
      rw [lookup_append_rec, h, lookup_cons_self, Option.none_or]
    rw [if_pos h, if_pos h, if_neg (by rw [h2]; exact fun he => Option.noConfusion he)]
    rw [List.map_append, map_replace_of_lookup_none c w r h]
    simp
  · unfold withColumn
    have h2 : List.lookup c (r.map (fun kv => if kv.1 = c then (c, v) else kv)) ≠ none := by
      rw [lookup_map_replace]
      rcases Option.ne_none_iff_exists'.mp h with ⟨u, hu⟩
      rw [hu]
      exact fun he => Option.noConfusion he
    rw [if_neg h, if_neg h, if_neg h2, List.map_map]
    refine List.map_congr_left (fun kv _ => ?_)
    by_cases hk : kv.1 = c
    · simp [Function.comp, hk]
    · simp [Function.comp, hk]

/-! ## Claim theorems: the capping transform and the call-site ε -/

/-- C3 (counterexample): with inverted bounds the claim's unordered
three-case description of the clamp fails — at `lower = 1`,
`upper = 0`, `x = 1/2` the code returns `lower`, not `upper`, although
`x > upper`. -/
theorem cap_unordered_cases_false :
    ¬ (∀ lower upper x : ℚ,
        (x < lower → numeric_column_capped lower upper x = lower) ∧
        (x > upper → numeric_column_capped lower upper x = upper) ∧
        (¬ x < lower → ¬ x > upper → numeric_column_capped lower upper x = x)) := by
  intro h
  have h2 := (h 1 0 (1/2)).2.1 (by norm_num)
  norm_num [numeric_column_capped] at h2

/-- C3 (amended): the capping transform is a pure total function whose
cases apply in the order of the `when`-chain of lines 50-53: output is
`lower` if `x < lower`; otherwise `upper` if `x > upper`; otherwise
`x`. -/
theorem cap_ordered_cases (lower upper x : ℚ) :
    (x < lower → numeric_column_capped lower upper x = lower) ∧
    (¬ x < lower → x > upper → numeric_column_capped lower upper x = upper) ∧
    (¬ x < lower → ¬ x > upper → numeric_column_capped lower upper x = x) := by
  unfold numeric_column_capped
  refine ⟨fun h => if_pos h, fun h1 h2 => ?_, fun h1 h2 => ?_⟩
  · rw [if_neg h1, if_pos h2]
  · rw [if_neg h1, if_neg h2]

/-- C3 (witness): the first case of `cap_ordered_cases` at
`lower = 0`, `upper = 10`, `x = -1`. -/
theorem cap_ordered_cases_witness : numeric_column_capped 0 10 (-1) = 0 :=
  (cap_ordered_cases 0 10 (-1)).1 (by norm_num)

/-- C4 (counterexample): the relative-error argument actually passed at
line 46 is `0.0`, which does not lie strictly between 0 and 1. -/
theorem relativeError_not_in_open_interval :
    ¬ (0 < relativeErrorArg ∧ relativeErrorArg < 1) := by
  intro h
  exact absurd h.1 (by norm_num [relativeErrorArg])

/-- C4 (amended): the relative rank-error value passed to the quantile
computation at line 46 is exactly `0.0` — it satisfies `0 ≤ ε < 1` (an
exact-quantile request) but is not strictly positive, and the spec's
`0.01` default is not used. -/
theorem relativeError_eq_zero :
    relativeErrorArg = 0 ∧ 0 ≤ relativeErrorArg ∧ relativeErrorArg < 1 ∧
      (∀ df, quantiles df =
        approxQuantile df "numeric_column" probabilitiesArg relativeErrorArg) :=
  ⟨rfl, le_refl 0, by norm_num [relativeErrorArg], fun _ => rfl⟩

/-- C6 (counterexample): with inverted bounds (`lower = 1`,
`upper = 0`) the clamp is not idempotent: at `x = 0` one application
gives `1`, a second gives `0`. -/
theorem cap_idempotent_false :
    ¬ (∀ lower upper x : ℚ,
        numeric_column_capped lower upper (numeric_column_capped lower upper x) =
          numeric_column_capped lower upper x) := by
  intro h
  have h2 := h 1 0 0
  norm_num [numeric_column_capped] at h2

/-- C6 (amended): for ordered bounds `lower ≤ upper` — as every pair of
bounds produced by the quantile stage is — the capping transform is
idempotent. -/
theorem cap_idempotent (lower upper x : ℚ) (h : lower ≤ upper) :
    numeric_column_capped lower upper (numeric_column_capped lower upper x) =
      numeric_column_capped lower upper x := by
  unfold numeric_column_capped
  split_ifs <;> first | rfl | linarith

/-- C6 (witness): idempotence of the clamp at `lower = 0`,
`upper = 10`, `x = 25`. -/
theorem cap_idempotent_witness :
    numeric_column_capped 0 10 (numeric_column_capped 0 10 25) =
      numeric_column_capped 0 10 25 :=
  cap_idempotent 0 10 25 (by norm_num)

/-- C5: merging with the empty sketch is an identity, on the nose and
on every query result, on both sides — in particular merging an empty
sketch with a non-empty one is a well-defined identity, never an
error. -/
theorem merge_empty_identity (S : Sketch) :
    Sketch.merge S Sketch.empty = S ∧ Sketch.merge Sketch.empty S = S ∧
    (∀ r, (Sketch.merge S Sketch.empty).query r = S.query r) ∧
    (∀ r, (Sketch.merge Sketch.empty S).query r = S.query r) := by
  rcases S with ⟨vals⟩
  have h1 : Sketch.merge ⟨vals⟩ Sketch.empty = ⟨vals⟩ := by
    simp [Sketch.merge, Sketch.empty]
  have h2 : Sketch.merge Sketch.empty ⟨vals⟩ = ⟨vals⟩ := by
    simp [Sketch.merge, Sketch.empty]
  exact ⟨h1, h2, fun r => by rw [h1], fun r => by rw [h2]⟩

/-- C9: the capping stage writes only the new column
`numeric_column_capped` — every other column of the record is left
unchanged, including `numeric_column` itself — and the value written
there is the clamp of the record's `numeric_column` cell. -/
theorem capRow_frame (lower upper : ℚ) (r : Record) :
    (∀ c, c ≠ "numeric_column_capped" →
        getCol (capRow lower upper r) c = getCol r c) ∧
    getCol (capRow lower upper r) "numeric_column_capped" =
      capValue lower upper (getCol r "numeric_column") := by
  constructor
  · intro c hc
    exact getCol_withColumn_ne r _ hc
  · exact getCol_withColumn_self r _ _

/-- C9 (witness): on a concrete record the original `numeric_column` is
untouched by the capping stage. -/
theorem capRow_frame_witness :
    getCol (capRow 0 1 [("numeric_column", Value.num 2)]) "numeric_column" =
      Value.num 2 :=
  ((capRow_frame 0 1 [("numeric_column", Value.num 2)]).1 "numeric_column"
    (by decide)).trans rfl

/-- C10: the standardization `when`-chain of lines 40-43 is the
identity on every cell value, so the categorical stage's result is
exactly the single `lower(trim(...))` write of line 39. -/
theorem categorical_standardize_identity :
    (∀ v, standardizeYesNo v = v) ∧
    (∀ r, categoricalRow r =
        withColumn r "categorical_column"
          (lowerTrimValue (getCol r "categorical_column"))) := by
  have hid : ∀ v, standardizeYesNo v = v := by
    intro v
    unfold standardizeYesNo
    by_cases h1 : v = Value.str "yes"
    · rw [if_pos h1, h1]
    · rw [if_neg h1]
      by_cases h2 : v = Value.str "no"
      · rw [if_pos h2, h2]
      · rw [if_neg h2]
  refine ⟨hid, fun r => ?_⟩
  show withColumn _ "categorical_column" _ = _
  rw [hid, getCol_withColumn_self, withColumn_withColumn]

/-! ## The pipeline's stage order -/

theorem runPipeline_eq (df : DataFrame) :
    runPipeline df =
      match outlierCappingStage (normalizeStage (missingValuesStage
          (dropDuplicatesStage df))) with
      | Except.error e =>
          ([StageName.dedup, StageName.missingValues, StageName.normalize,
            StageName.outlierCapping], Except.error e)
      | Except.ok d4 =>
          (specStageOrder,
            Except.ok (writeStage (repartitionStage (renameDropStage
              (typeCoercionStage d4))))) := by
  unfold runPipeline pipelineStages
  cases h : outlierCappingStage (normalizeStage (missingValuesStage
      (dropDuplicatesStage df))) with
  | error e => simp [runStages, liftStage, h, specStageOrder]
  | ok d4 => simp [runStages, liftStage, h, specStageOrder]

/-- C8: the pipeline enters its stages in exactly the fixed order
dedup, missing values, text/categorical normalization, outlier capping,
type coercion, rename/drop, repartition, write: the trace of entered
stages is always a prefix of that order, it is the whole order exactly
when the run succeeds, and a successful run's result is the stages'
composition in that order. -/
theorem pipeline_stage_order :
    (∀ df, ∃ k, (runPipeline df).1 = specStageOrder.take k) ∧
    (∀ df, isOkB (runPipeline df).2 = true → (runPipeline df).1 = specStageOrder) ∧
    (∀ df d4,
        outlierCappingStage (normalizeStage (missingValuesStage
          (dropDuplicatesStage df))) = Except.ok d4 →
        (runPipeline df).2 = Except.ok (writeStage (repartitionStage
          (renameDropStage (typeCoercionStage d4))))) := by
  refine ⟨fun df => ?_, fun df h => ?_, fun df d4 h4 => ?_⟩
  · rw [runPipeline_eq]
    cases h : outlierCappingStage (normalizeStage (missingValuesStage
        (dropDuplicatesStage df))) with
    | error e => exact ⟨4, rfl⟩
    | ok d4 => exact ⟨8, rfl⟩
  · rw [runPipeline_eq] at h ⊢
    cases h' : outlierCappingStage (normalizeStage (missingValuesStage
        (dropDuplicatesStage df))) with
    | error e =>
        rw [h'] at h
        simp [isOkB] at h
    | ok d4 => rfl
  · rw [runPipeline_eq, h4]

/-- C8 (witness): on a concrete one-record dataset the pipeline
succeeds and its trace is exactly the spec's stage order. -/
theorem pipeline_stage_order_witness :
    (runPipeline sampleDf).1 = specStageOrder :=
  pipeline_stage_order.2.1 sampleDf (by rfl)

/-! ## The quantile core: sketch contents and rank bounds -/

theorem buildSketch_vals (part : List (Option ℚ)) :
    buildSketch part = ⟨part.filterMap id⟩ := by
  have haux : ∀ (p : List (Option ℚ)) (acc : List ℚ),
      p.foldl (fun (s : Sketch) (v? : Option ℚ) =>
          match v? with | some v => s.insert v | none => s) (⟨acc⟩ : Sketch) =
        ⟨acc ++ p.filterMap id⟩ := by
    intro p
    induction p with
    | nil => intro acc; simp
    | cons hd t ih =>
        intro acc
        cases hd with
        | none =>
            rw [List.foldl_cons]
            simpa using ih acc
        | some v =>
            rw [List.foldl_cons]
            show t.foldl _ (Sketch.insert ⟨acc⟩ v) = _
            rw [show Sketch.insert ⟨acc⟩ v = ⟨acc ++ [v]⟩ from rfl, ih (acc ++ [v])]
            simp
  simpa using haux part []

theorem mergeAll_vals (parts : List (List (Option ℚ))) :
    mergeAll parts = ⟨(parts.map (List.filterMap id)).flatten⟩ := by
  have haux : ∀ (sks : List Sketch) (acc : List ℚ),
      sks.foldl Sketch.merge ⟨acc⟩ = ⟨acc ++ (sks.map Sketch.vals).flatten⟩ := by
    intro sks
    induction sks with
    | nil => intro acc; simp
    | cons s t ih =>
        intro acc
        rcases s with ⟨sv⟩
        rw [List.foldl_cons]
        show t.foldl _ (Sketch.merge ⟨acc⟩ ⟨sv⟩) = _
        rw [show Sketch.merge ⟨acc⟩ ⟨sv⟩ = ⟨acc ++ sv⟩ from rfl, ih (acc ++ sv)]
        simp
  unfold mergeAll
  rw [show Sketch.empty = (⟨[]⟩ : Sketch) from rfl, haux]
  rw [List.nil_append, List.map_map]
  have hmaps : List.map (Sketch.vals ∘ buildSketch) parts =
      List.map (List.filterMap id) parts :=
    List.map_congr_left (fun p _ => by rw [Function.comp_apply, buildSketch_vals])
  rw [hmaps]

/-- A query on a non-empty multiset succeeds and returns a value whose
true rank range `[countLT, countLE]` in the multiset brackets `r·n`
exactly: the exact-quantile computation has zero rank error. -/
theorem query_rank_exact (xs : List ℚ) (hne : xs ≠ []) (r : ℚ)
    (h0 : 0 ≤ r) (h1 : r ≤ 1) :
    ∃ v, Sketch.query ⟨xs⟩ r = Except.ok v ∧
      (countLT v xs : ℚ) ≤ r * xs.length ∧
      r * (xs.length : ℚ) ≤ countLE v xs := by
  have hperm : List.Perm (xs.insertionSort (· ≤ ·)) xs :=
    List.perm_insertionSort _ xs
  set s := xs.insertionSort (· ≤ ·) with hs_def
  have hlen : s.length = xs.length := hperm.length_eq
  have hn : 0 < xs.length := List.length_pos.mpr hne
  set n := xs.length with hn_def
  set i := quantileIndex r n with hi_def
  have hi_le : i ≤ n - 1 := min_le_right _ _
  have hi_lt : i < n := by omega
  have hi_lt_s : i < s.length := by omega
  have hsorted : List.Pairwise (· ≤ ·) s := List.sorted_insertionSort _ xs
  set v := s[i] with hv_def
  have hrn : (0 : ℚ) ≤ r * (n : ℚ) := mul_nonneg h0 (Nat.cast_nonneg n)
  have hnn : (0 : ℤ) ≤ ⌊r * (n : ℚ)⌋ := Int.floor_nonneg.mpr hrn
  have hquery : Sketch.query ⟨xs⟩ r = Except.ok v := by
    unfold Sketch.query
    rw [if_neg hne]
    rw [List.getD_eq_getElem _ _ hi_lt_s]
  have hcLT : countLT v xs = s.countP (fun x => decide (x < v)) :=
    (hperm.countP_eq _).symm
  have hcLE : countLE v xs = s.countP (fun x => decide (x ≤ v)) :=
    (hperm.countP_eq _).symm
  have hA : s.countP (fun x => decide (x < v)) ≤ i := by
    have hsplit : s.countP (fun x => decide (x < v)) =
        (s.take i).countP (fun x => decide (x < v)) +
          (s.drop i).countP (fun x => decide (x < v)) := by
      conv_lhs => rw [← List.take_append_drop i s]
      rw [List.countP_append]
    have hdrop : (s.drop i).countP (fun x => decide (x < v)) = 0 := by
      rw [List.countP_eq_zero]
      intro a ha
      rcases List.mem_iff_getElem.mp ha with ⟨k, hk, hak⟩
      have hik : i + k < s.length := by
        rw [List.length_drop] at hk
        omega
      have hvle : v ≤ s[i + k] := by
        rcases Nat.eq_zero_or_pos k with hk0 | hkpos
        · subst hk0
          simp
        · exact (List.pairwise_iff_getElem.mp hsorted) i (i + k) hi_lt_s hik
            (by omega)
      have hget : (s.drop i)[k] = s[i + k] := List.getElem_drop s
      simp only [decide_eq_true_eq]
      rw [← hak, hget]
      exact not_lt.mpr hvle
    have htake : (s.take i).countP (fun x => decide (x < v)) ≤ i := by
      calc (s.take i).countP (fun x => decide (x < v)) ≤ (s.take i).length :=
            List.countP_le_length _
        _ ≤ i := by rw [List.length_take]; omega
    omega
  have hB : i + 1 ≤ s.countP (fun x => decide (x ≤ v)) := by
    have htake : (s.take (i + 1)).countP (fun x => decide (x ≤ v)) =
        (s.take (i + 1)).length := by
      rw [List.countP_eq_length]
      intro a ha
      rcases List.mem_iff_getElem.mp ha with ⟨k, hk, hak⟩
      have hkk : k < i + 1 := by
        rw [List.length_take] at hk
        omega
      have hks : k < s.length := by omega
      have hle : s[k] ≤ v := by
        rcases Nat.lt_or_ge k i with hki | hki
        · exact (List.pairwise_iff_getElem.mp hsorted) k i hks hi_lt_s hki
        · have hkeq : k = i := by omega
          subst hkeq
          exact le_refl _
      have hget : (s.take (i + 1))[k] = s[k] := List.getElem_take s
      simp only [decide_eq_true_eq]
      rw [← hak, hget]
      exact hle
    have hlen_take : (s.take (i + 1)).length = i + 1 := by
      rw [List.length_take]
      omega
    have hsum : s.countP (fun x => decide (x ≤ v)) =
        (s.take (i + 1)).countP (fun x => decide (x ≤ v)) +
          (s.drop (i + 1)).countP (fun x => decide (x ≤ v)) := by
      conv_lhs => rw [← List.take_append_drop (i + 1) s]
      rw [List.countP_append]
    omega
  have hfloor_cast : ((⌊r * (n : ℚ)⌋.toNat : ℕ) : ℚ) = ((⌊r * (n : ℚ)⌋ : ℤ) : ℚ) := by
    exact_mod_cast congrArg (fun z : ℤ => (z : ℚ)) (Int.toNat_of_nonneg hnn)
  refine ⟨v, hquery, ?_, ?_⟩
  · have hstep1 : countLT v xs ≤ i := by rw [hcLT]; exact hA
    have hstep2 : (i : ℚ) ≤ r * (n : ℚ) := by
      have hile : i ≤ ⌊r * (n : ℚ)⌋.toNat := min_le_left _ _
      calc (i : ℚ) ≤ ((⌊r * (n : ℚ)⌋.toNat : ℕ) : ℚ) := by exact_mod_cast hile
        _ = ((⌊r * (n : ℚ)⌋ : ℤ) : ℚ) := hfloor_cast
        _ ≤ r * (n : ℚ) := Int.floor_le _
    calc (countLT v xs : ℚ) ≤ (i : ℚ) := by exact_mod_cast hstep1
      _ ≤ r * (n : ℚ) := hstep2
  · have hstep3 : r * (n : ℚ) ≤ (i : ℚ) + 1 := by
      rcases le_or_lt (⌊r * (n : ℚ)⌋.toNat) (n - 1) with hmin | hmin
      · have hieq : i = ⌊r * (n : ℚ)⌋.toNat := min_eq_left hmin
        have hlt : r * (n : ℚ) < ((⌊r * (n : ℚ)⌋ : ℤ) : ℚ) + 1 :=
          Int.lt_floor_add_one _
        rw [hieq]
        calc r * (n : ℚ) ≤ ((⌊r * (n : ℚ)⌋ : ℤ) : ℚ) + 1 := le_of_lt hlt
          _ = ((⌊r * (n : ℚ)⌋.toNat : ℕ) : ℚ) + 1 := by rw [hfloor_cast]
      · have hieq : i = n - 1 := min_eq_right (le_of_lt hmin)
        have hn1 : ((n - 1 : ℕ) : ℚ) = (n : ℚ) - 1 := by
          have h1n : (1 : ℕ) ≤ n := hn
          push_cast [h1n]
          ring
        rw [hieq, hn1]
        have hbound : r * (n : ℚ) ≤ (n : ℚ) := by
          calc r * (n : ℚ) ≤ 1 * (n : ℚ) :=
                mul_le_mul_of_nonneg_right h1 (Nat.cast_nonneg n)
            _ = (n : ℚ) := one_mul _
        linarith
    have hstep4 : i + 1 ≤ countLE v xs := by rw [hcLE]; exact hB
    calc r * (n : ℚ) ≤ (i : ℚ) + 1 := hstep3
      _ ≤ countLE v xs := by exact_mod_cast hstep4

/-- The coordinator query on any partitioning of a multiset `xs`
succeeds and answers with zero rank error relative to `xs`. -/
theorem estimateAt_rank_exact (parts : List (List (Option ℚ))) (xs : List ℚ)
    (hx : List.Perm ((parts.map (List.filterMap id)).flatten) xs)
    (hne : xs ≠ []) (r : ℚ) (h0 : 0 ≤ r) (h1 : r ≤ 1) :
    ∃ v, estimateAt parts r = Except.ok v ∧
      (countLT v xs : ℚ) ≤ r * xs.length ∧
      r * (xs.length : ℚ) ≤ countLE v xs := by
  have hyne : (parts.map (List.filterMap id)).flatten ≠ [] := by
    intro h
    rw [h] at hx
    exact hne (hx.symm.eq_nil)
  rcases query_rank_exact ((parts.map (List.filterMap id)).flatten) hyne r h0 h1
    with ⟨v, hq, hlt, hle⟩
  have hest : estimateAt parts r = Except.ok v := by
    unfold estimateAt
    rw [mergeAll_vals]
    exact hq
  have hcnt1 : countLT v ((parts.map (List.filterMap id)).flatten) = countLT v xs :=
    hx.countP_eq _
  have hcnt2 : countLE v ((parts.map (List.filterMap id)).flatten) = countLE v xs :=
    hx.countP_eq _
  have hlens : ((parts.map (List.filterMap id)).flatten).length = xs.length :=
    hx.length_eq
  refine ⟨v, hest, ?_, ?_⟩
  · rw [← hcnt1, ← hlens]
    exact hlt
  · rw [← hcnt2, ← hlens]
    exact hle

/-- C1: for every finite multiset of values, however it is split into
partitions, the coordinator's estimate at a requested rank `r ∈ [0, 1]`
returns a value whose true rank in the full multiset is within `ε` of
`r`, for every `ε ≥ 0` (the exact computation requested at line 46 has
zero rank error, so `r` itself lies inside the value's true rank
range). -/
theorem estimate_rank_within_epsilon
    (parts : List (List (Option ℚ))) (xs : List ℚ)
    (hx : List.Perm ((parts.map (List.filterMap id)).flatten) xs)
    (hne : xs ≠ []) (r eps : ℚ) (h0 : 0 ≤ r) (h1 : r ≤ 1) (heps : 0 ≤ eps) :
    ∃ v, estimateAt parts r = Except.ok v ∧
      ∃ rho : ℚ, |rho - r| ≤ eps ∧
        (countLT v xs : ℚ) ≤ rho * xs.length ∧
        rho * (xs.length : ℚ) ≤ countLE v xs := by
  rcases estimateAt_rank_exact parts xs hx hne r h0 h1 with ⟨v, hest, hlt, hle⟩
  exact ⟨v, hest, r, by simpa using heps, hlt, hle⟩

/-- C1 (witness): the multiset `{1, 2}` split as `[1, null] | [2]`,
queried at rank `1/2` with `ε = 0`. -/
theorem estimate_rank_witness :
    ∃ v, estimateAt [[some 1, none], [some 2]] (1/2) = Except.ok v ∧
      ∃ rho : ℚ, |rho - 1/2| ≤ 0 ∧
        (countLT v [1, 2] : ℚ) ≤ rho * ([(1 : ℚ), 2] : List ℚ).length ∧
        rho * ((([(1 : ℚ), 2] : List ℚ).length : ℕ) : ℚ) ≤ countLE v [1, 2] :=
  estimate_rank_within_epsilon [[some 1, none], [some 2]] [1, 2]
    (by decide) (by decide) (1/2) 0 (by norm_num) (by norm_num) (le_refl 0)

/-- C2: a dataset whose target numeric column contributes zero numeric
values makes the quantile estimation fail with `EmptySketch` — and with
no other error, returning no bounds — and the pipeline surfaces the
failure of the outlier-capping stage as `StageFailed`. -/
theorem empty_column_fails_empty_sketch :
    (∀ parts ranks, (parts.map (List.filterMap id)).flatten = ([] : List ℚ) →
        ranks ≠ [] → estimate parts ranks = Except.error CoreError.emptySketch) ∧
    (∀ df : DataFrame,
        (df.map (fun r => toNum (getCol r "numeric_column"))).filterMap id = [] →
        outlierCappingStage df = Except.error
          (PipelineError.stageFailed StageName.outlierCapping CoreError.emptySketch)) := by
  have hq : ∀ parts, (parts.map (List.filterMap id)).flatten = ([] : List ℚ) →
      ∀ r, (mergeAll parts).query r = Except.error CoreError.emptySketch := by
    intro parts h r
    rw [mergeAll_vals]
    unfold Sketch.query
    rw [if_pos h]
  constructor
  · intro parts ranks h hne
    rcases ranks with _ | ⟨r0, rest⟩
    · exact absurd rfl hne
    · unfold estimate
      simp only [List.mapM_cons, hq parts h]
      rfl
  · intro df h
    have hquant : quantiles df = Except.error CoreError.emptySketch := by
      have hsk : buildSketch (df.map (fun r => toNum (getCol r "numeric_column"))) =
          ⟨[]⟩ := by
        rw [buildSketch_vals, h]
      show List.mapM
          (Sketch.query (buildSketch (df.map (fun r => toNum (getCol r "numeric_column")))))
          [5/100, 95/100] = Except.error CoreError.emptySketch
      rw [hsk]
      rfl
    unfold outlierCappingStage
    rw [hquant]

/-- C2 (witness): a single partition whose target column holds only a
null makes the outlier-capping stage fail as
`StageFailed(outlierCapping, EmptySketch)`. -/
theorem empty_column_witness :
    outlierCappingStage nullColumnDf = Except.error
      (PipelineError.stageFailed StageName.outlierCapping CoreError.emptySketch) :=
  empty_column_fails_empty_sketch.2 nullColumnDf (by rfl)

/-- A query against the summary of `n > 0` copies of `c` answers `c`
at every rank. -/
theorem query_replicate (n : ℕ) (hn : 0 < n) (c : ℚ) (r : ℚ) :
    Sketch.query ⟨List.replicate n c⟩ r = Except.ok c := by
  unfold Sketch.query
  have hne : List.replicate n c ≠ [] := by
    intro h
    have := congrArg List.length h
    rw [List.length_replicate] at this
    simp at this
    omega
  rw [if_neg hne]
  have hperm := List.perm_insertionSort ((· ≤ ·) : ℚ → ℚ → Prop) (List.replicate n c)
  have hsort_eq : (List.replicate n c).insertionSort (· ≤ ·) = List.replicate n c := by
    apply List.eq_replicate_iff.mpr
    constructor
    · rw [hperm.length_eq, List.length_replicate]
    · intro b hb
      exact List.eq_of_mem_replicate (hperm.mem_iff.mp hb)
  rw [hsort_eq, List.length_replicate]
  have hidx : quantileIndex r n < n := by
    have := min_le_right ((⌊r * (n : ℚ)⌋).toNat) (n - 1)
    unfold quantileIndex
    omega
  rw [List.getD_eq_getElem _ _ (by rw [List.length_replicate]; exact hidx)]
  rw [List.getElem_replicate]

/-- C7: a non-empty all-identical column yields
`lower == upper == that value` as its computed bounds, and a column
with fewer than `1/ε` distinct values gets an exact (zero-rank-error)
quantile answer. -/
theorem degenerate_column_quantiles :
    (∀ (df : DataFrame) (c : ℚ) (n : ℕ), 0 < n →
        (df.map (fun r => toNum (getCol r "numeric_column"))).filterMap id =
          List.replicate n c →
        quantiles df = Except.ok [c, c]) ∧
    (∀ (parts : List (List (Option ℚ))) (xs : List ℚ) (r eps : ℚ),
        List.Perm ((parts.map (List.filterMap id)).flatten) xs → xs ≠ [] →
        0 ≤ r → r ≤ 1 → 0 < eps → (xs.dedup.length : ℚ) < 1 / eps →
        ∃ v, estimateAt parts r = Except.ok v ∧
          (countLT v xs : ℚ) ≤ r * xs.length ∧
          r * (xs.length : ℚ) ≤ countLE v xs) := by
  constructor
  · intro df c n hn h
    have hsk : buildSketch (df.map (fun r => toNum (getCol r "numeric_column"))) =
        ⟨List.replicate n c⟩ := by
      rw [buildSketch_vals, h]
    show List.mapM
        (Sketch.query (buildSketch (df.map (fun r => toNum (getCol r "numeric_column")))))
        [5/100, 95/100] = Except.ok [c, c]
    rw [hsk]
    simp only [List.mapM_cons, List.mapM_nil, query_replicate n hn c]
    rfl
  · intro parts xs r eps hx hne h0 h1 _heps _hdistinct
    exact estimateAt_rank_exact parts xs hx hne r h0 h1

/-- C7 (witness): the one-value column `[5]` produces bounds
`lower = upper = 5`. -/
theorem degenerate_column_witness : quantiles sampleDf = Except.ok [5, 5] :=
  degenerate_column_quantiles.1 sampleDf 5 1 (by norm_num) (by rfl)

end DataframeCleaning
